import Mathlib

/-!
Verification of the `BaseIPSimulation` sensitivity engine
(SimPEG, `SimPEG/electromagnetics/static/induced_polarization/simulation.py`).

The engine computes adjoint-state Jacobian-vector products (`Jvec`),
adjoint products (`Jtvec` / `_Jtvec`), a full dense Jacobian (`getJ`),
forward fields (`fields`) and predicted data (`dpred`, `forward`).

Shallow embedding conventions: dense float vectors become functions
`Fin n → ℤ`; the factorized operator `Ainv` becomes a matrix acting by
`mulVec`; external collaborators that live outside this source unit
(`getADeriv`, `getRHSDeriv`, the field projection derivative, receiver
`evalDeriv`/`getP`) are modelled from the spec as linear maps carried by
the structures below.  Stateful caching behaviour is embedded as explicit
state passing on `SimState`, with instrumentation counters making the
number of factorizations, solves and forward evaluations observable.
-/

namespace IPSimVerif

open Matrix

/-- Dense real vector of length `n`.  The embedding uses exact integer
arithmetic: no operation of this source unit divides, every claimed
identity is exact over any commutative ring, and the spec's "within
numerical tolerance" becomes exact equality. -/
abbrev Vec (n : ℕ) : Type := Fin n → ℤ

/-- A receiver: `nD` observations and the projection matrix `P`
(`rx.getP(mesh, ...)`) from the `p` field unknowns to its data. Modelled
from the spec: receiver `evalDeriv` applies `P` (adjoint: `P.T`). -/
structure Receiver (p : ℕ) where
  nD : ℕ
  P : Matrix (Fin nD) (Fin p) ℤ

/-- A source: its stored solution column `u_src = f[src, solutionType]`,
the right-hand-side derivative operator (Modelled from the spec:
`getRHSDeriv(src, v)` is linear in `v`, with an adjoint path applying the
transpose), and its ordered receivers. -/
structure Source (p nC : ℕ) where
  u : Vec p
  rhsDeriv : Matrix (Fin p) (Fin nC) ℤ
  rxs : List (Receiver p)

/-- Static data of one `BaseIPSimulation` instance as its sensitivity
engine sees it: the formulation `sign` (+1 cell-centered, -1 nodal), the
factorized operator action `Ainv`, the system-operator derivative
(Modelled from the spec: `getADeriv(u, v)` is linear in the direction `v`
with an adjoint path applying the transpose), the field projection
derivative (Modelled from the spec: `f._phiSolutionDeriv` splits into a
field-space part `fF` and a direct model-space part `fD`; the adjoint
path returns the pair of transposed applications), and the survey's
ordered sources. -/
structure IPSim (p nC : ℕ) where
  sign : ℤ
  Ainv : Matrix (Fin p) (Fin p) ℤ
  ADeriv : Vec p → Matrix (Fin p) (Fin nC) ℤ
  fF : Matrix (Fin p) (Fin p) ℤ
  fD : Matrix (Fin p) (Fin nC) ℤ
  srcs : List (Source p nC)

/-- Scale a data vector by a scalar (`self.sign * Jv`). -/
def scale (c : ℤ) (xs : List ℤ) : List ℤ := xs.map (fun x => c * x)

/-- Dot product of two dense vectors given as lists (truncating, as
`numpy.dot` on equal-length data; extra entries never arise in use). -/
def dotL (a b : List ℤ) : ℤ := (List.zipWith (fun x y => x * y) a b).sum

/-- The length-`k` slice at the head of `w`, as a `Fin`-vector
(Modelled from the spec: the `Data` wrapper hands `v[src, rx]` the
contiguous slice of the observation vector in source-then-receiver
order). -/
def sliceVec (w : List ℤ) (k : ℕ) : Vec k := fun i => w.getD i.val 0

/-- Apply a matrix given as its list of columns to a coefficient list:
`Σ w_i • col_i` (the product `M @ w` for a column-list matrix). -/
def applyCols {n : ℕ} (cols : List (Vec n)) (w : List ℤ) : Vec n :=
  (List.zipWith (fun wi col => wi • col) w cols).sum

/-- Total observation count of one source (`Σ rx.nD` over its receivers). -/
def srcND {p nC : ℕ} (s : Source p nC) : ℕ := (s.rxs.map Receiver.nD).sum

/-- Total observation count of the survey (`survey.nD`). -/
def totalND {p nC : ℕ} (sim : IPSim p nC) : ℕ := (sim.srcs.map srcND).sum

/-- Source lines 131-135: `du_dm_v = Ainv * (-dA_dm_v + dRHS_dm_v)` with
`dA_dm_v = getADeriv(u_src, v)` and `dRHS_dm_v = getRHSDeriv(src, v)`. -/
def duDm {p nC : ℕ} (sim : IPSim p nC) (s : Source p nC) (v : Vec nC) : Vec p :=
  sim.Ainv.mulVec (-(sim.ADeriv s.u).mulVec v + s.rhsDeriv.mulVec v)

/-- Source lines 137-140: `df_dm_v = df_dmFun(src, du_dm_v, v, adjoint=False)`
then the receiver projection `rx.evalDeriv(src, mesh, f, df_dm_v)`. -/
def JvecRx {p nC : ℕ} (sim : IPSim p nC) (s : Source p nC) (rx : Receiver p)
    (v : Vec nC) : List ℤ :=
  List.ofFn (rx.P.mulVec (sim.fF.mulVec (duDm sim s v) + sim.fD.mulVec v))

/-- The receiver loop of `Jvec` (source lines 137-140), concatenating per
receiver. -/
def JvecRxs {p nC : ℕ} (sim : IPSim p nC) (s : Source p nC) :
    List (Receiver p) → Vec nC → List ℤ
  | [], _ => []
  | rx :: rest, v => JvecRx sim s rx v ++ JvecRxs sim s rest v

/-- The source loop of `Jvec` (source lines 128-140). -/
def JvecSrcs {p nC : ℕ} (sim : IPSim p nC) :
    List (Source p nC) → Vec nC → List ℤ
  | [], _ => []
  | s :: rest, v => JvecRxs sim s s.rxs v ++ JvecSrcs sim rest v

/-- Source lines 121-144, `storeJ` disabled: the adjoint-state
Jacobian-vector product `np.hstack(Jv)` scaled by `self.sign`. -/
def Jvec {p nC : ℕ} (sim : IPSim p nC) (v : Vec nC) : List ℤ :=
  scale sim.sign (JvecSrcs sim sim.srcs v)

/-- Source lines 146-147: `forward(m, f) = Jvec(m, m, f)`. -/
def forward {p nC : ℕ} (sim : IPSim p nC) (m : Vec nC) : List ℤ := Jvec sim m

/-- Source lines 193-209, one receiver with a direction given:
`PTv = rx.evalDeriv(..., adjoint=True)`, the field adjoint derivative
pair `(df_duT, df_dmT)`, the adjoint solve `ATinvdf_duT = Ainv * df_duT`
(the code reuses the forward factorization), the adjoint operator and
right-hand-side derivatives, and the accumulated `df_dmT + du_dmT`. -/
def JtvecRx {p nC : ℕ} (sim : IPSim p nC) (s : Source p nC) (rx : Receiver p)
    (wr : Vec rx.nD) : Vec nC :=
  let PTv := Matrix.vecMul wr rx.P
  let df_duT := Matrix.vecMul PTv sim.fF
  let df_dmT := Matrix.vecMul PTv sim.fD
  let ATinvdf_duT := sim.Ainv.mulVec df_duT
  let dA_dmT := Matrix.vecMul ATinvdf_duT (sim.ADeriv s.u)
  let dRHS_dmT := Matrix.vecMul ATinvdf_duT s.rhsDeriv
  df_dmT + (-dA_dmT + dRHS_dmT)

/-- The receiver loop of `_Jtvec` with a direction, slicing the
observation vector in source-then-receiver order. -/
def JtvecRxs {p nC : ℕ} (sim : IPSim p nC) (s : Source p nC) :
    List (Receiver p) → List ℤ → Vec nC
  | [], _ => 0
  | rx :: rest, w =>
    JtvecRx sim s rx (sliceVec w rx.nD) + JtvecRxs sim s rest (w.drop rx.nD)

/-- The source loop of `_Jtvec` with a direction. -/
def JtvecSrcs {p nC : ℕ} (sim : IPSim p nC) :
    List (Source p nC) → List ℤ → Vec nC
  | [], _ => 0
  | s :: rest, w => JtvecRxs sim s s.rxs w + JtvecSrcs sim rest (w.drop (srcND s))

/-- Source lines 174-228, `_Jtvec` with a direction vector: the
accumulated adjoint product scaled by `self.sign` (line 228). -/
def JtvecDir {p nC : ℕ} (sim : IPSim p nC) (w : List ℤ) : Vec nC :=
  sim.sign • JtvecSrcs sim sim.srcs w

/-- Source lines 210-222, one receiver block of the full assembly
(`v = None`): `P = rx.getP(...)`, `ATinvdf_duT = Ainv * P.T`,
`dA_dmT = getADeriv(u_src, ATinvdf_duT, adjoint=True)`, and the block
written is `-dA_dmT`, one column per observation of the receiver. -/
def fullColsRx {p nC : ℕ} (sim : IPSim p nC) (s : Source p nC)
    (rx : Receiver p) : List (Vec nC) :=
  List.ofFn (fun j : Fin rx.nD => fun c =>
    -((sim.ADeriv s.u).transpose * (sim.Ainv * rx.P.transpose)) c j)

/-- The receiver loop of the full assembly for one source. -/
def fullColsSrc {p nC : ℕ} (sim : IPSim p nC) (s : Source p nC) : List (Vec nC) :=
  (s.rxs.map (fullColsRx sim s)).flatten

/-- Source lines 179-230 with `v = None`: the `(nC, nD)` column-major
buffer as its list of columns, blocks laid out contiguously in
source-then-receiver order and advanced by `rx.nD`; returned with no
sign scaling (line 230). -/
def fullCols {p nC : ℕ} (sim : IPSim p nC) : List (Vec nC) :=
  (sim.srcs.map (fullColsSrc sim)).flatten

/-- What claim C4 states one full-assembly block holds: the sum of the
adjoint system-operator derivative and the adjoint right-hand-side
derivative in the adjoint field direction (mirroring the
direction-vector branch).  This definition follows the claim's words, to
be compared with `fullColsRx`, which is translated from the source. -/
def fullColsRxSpec {p nC : ℕ} (sim : IPSim p nC) (s : Source p nC)
    (rx : Receiver p) : List (Vec nC) :=
  List.ofFn (fun j : Fin rx.nD => fun c =>
    (-((sim.ADeriv s.u).transpose * (sim.Ainv * rx.P.transpose))
      + (s.rhsDeriv.transpose * (sim.Ainv * rx.P.transpose))) c j)

/-- Full assembly as claim C4 describes it (per-block sum of both
adjoint derivatives), for comparison with `fullCols`. -/
def fullColsSpec {p nC : ℕ} (sim : IPSim p nC) : List (Vec nC) :=
  (sim.srcs.map (fun s => (s.rxs.map (fullColsRxSpec sim s)).flatten)).flatten

/-- The dense rows of the adjoint-state Jacobian for one receiver: rows
of the composite `P * (fF * (Ainv * (-ADeriv u + rhsDeriv)) + fD)`. -/
def JacRowsRx {p nC : ℕ} (sim : IPSim p nC) (s : Source p nC)
    (rx : Receiver p) : List (Vec nC) :=
  List.ofFn (fun i : Fin rx.nD =>
    (rx.P * (sim.fF * (sim.Ainv * (-(sim.ADeriv s.u) + s.rhsDeriv)) + sim.fD)) i)

/-- Receiver loop of the dense adjoint-state Jacobian rows. -/
def JacRowsRxs {p nC : ℕ} (sim : IPSim p nC) (s : Source p nC) :
    List (Receiver p) → List (Vec nC)
  | [] => []
  | rx :: rest => JacRowsRx sim s rx ++ JacRowsRxs sim s rest

/-- Source loop of the dense adjoint-state Jacobian rows. -/
def JacRowsSrcs {p nC : ℕ} (sim : IPSim p nC) :
    List (Source p nC) → List (Vec nC)
  | [] => []
  | s :: rest => JacRowsRxs sim s s.rxs ++ JacRowsSrcs sim rest

/-- The dense linear map underlying the adjoint-state `Jvec`, one row per
observation in source-then-receiver order (unsigned). -/
def JacRows {p nC : ℕ} (sim : IPSim p nC) : List (Vec nC) :=
  JacRowsSrcs sim sim.srcs

/-- Mutable caches of one simulation instance: the model (`self.model`),
the field object (`self._f`, `none` = Python `None`; `some []` is the
emptied list the code assigns after `getJ`), the factorization handle
(`self.Ainv`: `none` = never built, `some true` = alive, `some false` =
cleaned), the cached full Jacobian rows (`self._Jmatrix`) and predicted
data (`self._pred`).  The counters are instrumentation making cost
observable: factorizations, multi-RHS solves, predicted-data forward
evaluations and full-Jacobian assemblies performed so far. -/
structure SimState (p nC : ℕ) where
  sim : IPSim p nC
  storeJ : Bool
  model : Option (Vec nC)
  fld : Option (List (Vec p))
  ainv : Option Bool
  Jmat : Option (List (Vec nC))
  pred : Option (List ℤ)
  factorCount : ℕ
  solveCount : ℕ
  forwardCount : ℕ
  jComputeCount : ℕ

/-- Source lines 262-265: `deleteTheseOnModelUpdate` returns the empty
list, so no cached attribute is deleted when the model is assigned. -/
def deleteTheseOnModelUpdate : List String := []

/-- Assignment `self.model = m`.  Modelled from the spec: the framework's
model setter invalidates exactly the attributes named by
`deleteTheseOnModelUpdate`; that list is empty here, so every cache
survives the assignment. -/
def setModelOp {p nC : ℕ} (m : Vec nC) (s : SimState p nC) : SimState p nC :=
  { s with model := some m }

/-- The stored multi-RHS solution, one column per source.  Modelled from
the spec: `u = Ainv * RHS` yields the per-source solution columns held by
the field object; they are exactly the stored `Source.u` data. -/
def fieldsSolution {p nC : ℕ} (sim : IPSim p nC) : List (Vec p) :=
  sim.srcs.map Source.u

/-- Source lines 45-71, `fields(m)`: when no field object is cached,
build and factorize the operator (only if no factorization handle
exists), solve once for all sources and store the result; in every case
recompute `self._pred = self.forward(m, f=self._f)`. -/
def fieldsOp {p nC : ℕ} (m : Vec nC) (s : SimState p nC) : SimState p nC :=
  let s1 :=
    match s.fld with
    | none =>
      let s0 :=
        match s.ainv with
        | none => { s with ainv := some true, factorCount := s.factorCount + 1 }
        | some _ => s
      { s0 with fld := some (fieldsSolution s0.sim),
                solveCount := s0.solveCount + 1 }
    | some _ => s
  { s1 with pred := some (forward s1.sim m),
            forwardCount := s1.forwardCount + 1 }

/-- Source lines 73-82, `dpred(m, f)`: obtain fields only when no field
object is supplied, then return `self._pred`. -/
def dpredOp {p nC : ℕ} (m : Vec nC) (fArg : Option (List (Vec p)))
    (s : SimState p nC) : Option (List ℤ) × SimState p nC :=
  match fArg with
  | none => let s2 := fieldsOp m s; (s2.pred, s2)
  | some _ => (s.pred, s)

/-- Source lines 84-108, `getJ(m, f)`: set the model; a cache hit returns
the stored matrix unchanged; otherwise compute fields if needed, assemble
`(_Jtvec(m, v=None, f)).T` (whose rows are `fullCols`), cache it, set the
field object to the empty list and clean the factorization. -/
def getJOp {p nC : ℕ} (m : Vec nC) (fArg : Option (List (Vec p)))
    (s : SimState p nC) : List (Vec nC) × SimState p nC :=
  let s0 := setModelOp m s
  match s0.Jmat with
  | some J => (J, s0)
  | none =>
    let s1 :=
      match fArg with
      | none => fieldsOp m s0
      | some _ => s0
    let J := fullCols s1.sim
    (J, { s1 with
          Jmat := some J,
          fld := some ([] : List (Vec p)),
          ainv := match s1.ainv with
                  | none => none
                  | some _ => some false,
          jComputeCount := s1.jComputeCount + 1 })

/-- Source lines 111-144, `Jvec(m, v, f)`: set the model; with `storeJ`
the product is `sign * (getJ(m) @ v)` against the cached or freshly
stored matrix; otherwise the adjoint-state product `Jvec`. -/
def JvecOp {p nC : ℕ} (m : Vec nC) (v : Vec nC)
    (fArg : Option (List (Vec p))) (s : SimState p nC) :
    List ℤ × SimState p nC :=
  let s0 := setModelOp m s
  if s0.storeJ then
    let r := getJOp m fArg s0
    (scale s0.sim.sign (r.1.map (fun row => Matrix.dotProduct row v)), r.2)
  else
    let s1 :=
      match fArg with
      | none => fieldsOp m s0
      | some _ => s0
    (Jvec s1.sim v, s1)

/-- Source lines 149-166, `Jtvec(m, v, f)`: with `storeJ` the product is
`sign * (getJ(m).T @ v)`; otherwise set the model and run `_Jtvec`. -/
def JtvecOp {p nC : ℕ} (m : Vec nC) (w : List ℤ)
    (fArg : Option (List (Vec p))) (s : SimState p nC) :
    Vec nC × SimState p nC :=
  if s.storeJ then
    let r := getJOp m fArg s
    (s.sim.sign • applyCols r.1 w, r.2)
  else
    let s0 := setModelOp m s
    let s1 :=
      match fArg with
      | none => fieldsOp m s0
      | some _ => s0
    (JtvecDir s1.sim w, s1)

/-- A dense matrix as the underlying array library sees it: declared row
and column counts plus row-major data. -/
structure LMat where
  r : ℕ
  c : ℕ
  m : List (List ℤ)

/-- One matrix-vector kernel invocation.  The dimension check happens
inside the call, exactly as in the underlying array library, so the
attempt is counted before the check: the pair returns the result or a
shape error together with the updated count of attempted linear-algebra
operations. -/
def mvE (M : LMat) (x : List ℤ) (cnt : ℕ) : Except String (List ℤ) × ℕ :=
  (if M.c = x.length then Except.ok (M.m.map (fun row => dotL row x))
   else Except.error "shapes not aligned", cnt + 1)

/-- Elementwise vector addition kernel, dimension-checked inside the
call like `mvE`. -/
def addE (a b : List ℤ) (cnt : ℕ) : Except String (List ℤ) × ℕ :=
  (if a.length = b.length then
     Except.ok (List.zipWith (fun x y => x + y) a b)
   else Except.error "operands could not be broadcast together", cnt + 1)

/-- Sequencing of kernel calls: an error aborts the computation at the
point it is raised, keeping the count of attempts made so far. -/
def bindE {α β : Type} (r : Except String α × ℕ)
    (f : α → ℕ → Except String β × ℕ) : Except String β × ℕ :=
  match r with
  | (Except.ok a, c) => f a c
  | (Except.error e, c) => (Except.error e, c)

/-- A source for the dimension-checked embedding: stored solution, the
system-operator derivative at that solution (`getADeriv(u_src, .)`), the
right-hand-side derivative, and the receiver projection matrices. -/
structure LSource where
  u : List ℤ
  aDerivM : LMat
  rhsM : LMat
  rxs : List LMat

/-- Static data for the dimension-checked embedding of `Jvec`. -/
structure LSim where
  sign : ℤ
  AinvM : LMat
  FM : LMat
  DM : LMat
  srcs : List LSource

/-- Receiver loop of `Jvec` (source lines 137-140) over dimension-checked
kernels: `df_dm_v = fF @ du + fD @ v`, then `P @ df_dm_v`. -/
def JvecRxsL (sim : LSim) (du v : List ℤ) :
    List LMat → ℕ → Except String (List ℤ) × ℕ
  | [], cnt => (Except.ok [], cnt)
  | P :: rest, cnt =>
    bindE (mvE sim.FM du cnt) fun a c1 =>
    bindE (mvE sim.DM v c1) fun b c2 =>
    bindE (addE a b c2) fun df c3 =>
    bindE (mvE P df c3) fun dv c4 =>
    bindE (JvecRxsL sim du v rest c4) fun tail c5 =>
      (Except.ok (dv ++ tail), c5)

/-- Source loop of `Jvec` (source lines 128-140) over dimension-checked
kernels: `dA_dm_v = getADeriv(u_src, v)` first touches `v`, then
`dRHS_dm_v`, their combination, the solve, and the receiver loop. -/
def JvecSrcsL (sim : LSim) (v : List ℤ) :
    List LSource → ℕ → Except String (List ℤ) × ℕ
  | [], cnt => (Except.ok [], cnt)
  | s :: rest, cnt =>
    bindE (mvE s.aDerivM v cnt) fun dA c1 =>
    bindE (mvE s.rhsM v c1) fun dR c2 =>
    bindE (addE (dA.map Neg.neg) dR c2) fun rhs c3 =>
    bindE (mvE sim.AinvM rhs c3) fun du c4 =>
    bindE (JvecRxsL sim du v s.rxs c4) fun here c5 =>
    bindE (JvecSrcsL sim v rest c5) fun tail c6 =>
      (Except.ok (here ++ tail), c6)

/-- Source lines 121-144 (`storeJ` disabled) over dimension-checked
kernels.  The source performs no size validation of `v`: the direction
vector first meets any shape information inside the linear-algebra
kernel of `getADeriv` for the first source. -/
def JvecL (sim : LSim) (v : List ℤ) : Except String (List ℤ) × ℕ :=
  bindE (JvecSrcsL sim v sim.srcs 0) fun xs c =>
    (Except.ok (scale sim.sign xs), c)

/-- Transpose of a dimension-checked matrix (for the adjoint kernel
calls of `_Jtvec`). -/
def LMat.transp (M : LMat) : LMat := ⟨M.c, M.r, M.m.transpose⟩

/-- Observation count of one source in the checked embedding: the sum of
its receivers' row counts. -/
def srcNDL (s : LSource) : ℕ := (s.rxs.map LMat.r).sum

/-- The survey's total observation count `survey.nD` in the checked
embedding. -/
def totalNDL (sim : LSim) : ℕ := (sim.srcs.map srcNDL).sum

/-- Source lines 193-209, one receiver of `_Jtvec` with a direction,
over dimension-checked kernels: `PTv = rx.evalDeriv(..., adjoint=True)`
(the transposed projection), the adjoint field-derivative pair, the
adjoint solve against the forward factorization, the adjoint operator
and right-hand-side derivatives, and `df_dmT + du_dmT`. -/
def JtvecRxL (sim : LSim) (s : LSource) (P : LMat) (wr : List ℤ) (cnt : ℕ) :
    Except String (List ℤ) × ℕ :=
  bindE (mvE P.transp wr cnt) fun PTv c1 =>
  bindE (mvE sim.FM.transp PTv c1) fun df_duT c2 =>
  bindE (mvE sim.DM.transp PTv c2) fun df_dmT c3 =>
  bindE (mvE sim.AinvM df_duT c3) fun ATinvdf_duT c4 =>
  bindE (mvE s.aDerivM.transp ATinvdf_duT c4) fun dA_dmT c5 =>
  bindE (mvE s.rhsM.transp ATinvdf_duT c5) fun dRHS_dmT c6 =>
  bindE (addE (dA_dmT.map Neg.neg) dRHS_dmT c6) fun du_dmT c7 =>
  addE df_dmT du_dmT c7

/-- Receiver loop of `_Jtvec` with a direction over checked kernels,
slicing `v[src, rx]` and accumulating `Jtv += df_dmT + du_dmT`. -/
def JtvecRxsL (sim : LSim) (s : LSource) :
    List LMat → List ℤ → List ℤ → ℕ → Except String (List ℤ) × ℕ
  | [], _, acc, cnt => (Except.ok acc, cnt)
  | P :: rest, w, acc, cnt =>
    bindE (JtvecRxL sim s P (w.take P.r) cnt) fun contrib c1 =>
    bindE (addE acc contrib c1) fun acc2 c2 =>
    JtvecRxsL sim s rest (w.drop P.r) acc2 c2

/-- Source loop of `_Jtvec` with a direction over checked kernels. -/
def JtvecSrcsL (sim : LSim) :
    List LSource → List ℤ → List ℤ → ℕ → Except String (List ℤ) × ℕ
  | [], _, acc, cnt => (Except.ok acc, cnt)
  | s :: rest, w, acc, cnt =>
    bindE (JtvecRxsL sim s s.rxs w acc cnt) fun acc2 c1 =>
    JtvecSrcsL sim rest (w.drop (srcNDL s)) acc2 c1

/-- Source lines 174-228, `_Jtvec` with a direction, over
dimension-checked kernels.  Modelled from the spec: line 176-177 first
wraps the direction in `Data(self.survey, v)`, and the `Data`
constructor — outside this source unit — validates the observation
vector's length against `survey.nD`, raising a descriptive
size-mismatch error before `Jtv = np.zeros(m.size)` and before any
linear-algebra kernel is invoked; only then does the accumulation loop
run, and the result is scaled by `sign`. -/
def JtvecL (sim : LSim) (m w : List ℤ) : Except String (List ℤ) × ℕ :=
  if w.length = totalNDL sim then
    bindE (JtvecSrcsL sim sim.srcs w (m.map (fun _ => 0)) 0) fun acc c =>
      (Except.ok (scale sim.sign acc), c)
  else (Except.error "observation vector length does not match survey.nD", 0)

/-- Concrete simulation exercising claim C1's theorem: two sources, a
single- and a two-observation receiver, nonzero operator, right-hand-side
and direct field derivatives, and a symmetric factorization. -/
def simC1 : IPSim 2 2 where
  sign := -1
  Ainv := Matrix.of (fun i j => if i = j then (2 : ℤ) else 1)
  ADeriv := fun u => Matrix.of (fun i j => u i + (j : ℤ))
  fF := Matrix.of (fun i j => (i : ℤ) + 2 * (j : ℤ))
  fD := Matrix.of (fun i j => (i : ℤ) - (j : ℤ))
  srcs :=
    [ { u := fun i => (i : ℤ) + 1
        rhsDeriv := Matrix.of (fun i j => (i : ℤ) * (j : ℤ) + 1)
        rxs := [⟨1, Matrix.of (fun _ j => (j : ℤ) + 3)⟩] },
      { u := fun i => 2 * (i : ℤ)
        rhsDeriv := 0
        rxs := [⟨2, Matrix.of (fun i j => (i : ℤ) + (j : ℤ))⟩] } ]

/-- Concrete cell-centered-style (`sign = +1`) instance for claim C2. -/
def simC2cc : IPSim 2 2 where
  sign := 1
  Ainv := Matrix.of (fun i j => if i = j then (3 : ℤ) else 1)
  ADeriv := fun u => Matrix.of (fun i j => u i * ((j : ℤ) + 1))
  fF := 1
  fD := 0
  srcs :=
    [ { u := fun i => (i : ℤ) + 2
        rhsDeriv := 0
        rxs := [⟨2, Matrix.of (fun i j => (i : ℤ) + 2 * (j : ℤ))⟩] } ]

/-- Concrete state with `storeJ` enabled and a cached matrix, for claim
C2's explicit-storage branch. -/
def stC2 : SimState 2 2 where
  sim := simC2cc
  storeJ := true
  model := none
  fld := none
  ainv := none
  Jmat := some [fun c => (c : ℤ) + 1, fun c => 2 * (c : ℤ)]
  pred := none
  factorCount := 0
  solveCount := 0
  forwardCount := 0
  jComputeCount := 0

/-- Concrete nodal-style (`sign = -1`) instance for claim C3. -/
def simC3 : IPSim 2 1 where
  sign := -1
  Ainv := Matrix.of (fun i j => (i : ℤ) + (j : ℤ) + 1)
  ADeriv := fun u => Matrix.of (fun i _ => u i - 1)
  fF := 1
  fD := 0
  srcs :=
    [ { u := fun i => 3 * (i : ℤ)
        rhsDeriv := 0
        rxs := [⟨1, Matrix.of (fun _ j => (j : ℤ) + 2)⟩,
                ⟨2, Matrix.of (fun i j => (i : ℤ) * (j : ℤ) + 1)⟩] } ]

/-- Single-observation receiver for the claim C4 witness. -/
def rxC4a : Receiver 1 := ⟨1, Matrix.of (fun _ _ => 2)⟩

/-- Two-observation receiver for the claim C4 witness. -/
def rxC4b : Receiver 1 := ⟨2, Matrix.of (fun i _ => (i : ℤ) + 1)⟩

/-- Source with both receivers for the claim C4 witness. -/
def srcC4 : Source 1 1 where
  u := fun _ => 1
  rhsDeriv := Matrix.of (fun _ _ => 4)
  rxs := [rxC4a, rxC4b]

/-- Simulation for the claim C4 witness. -/
def simC4 : IPSim 1 1 where
  sign := 1
  Ainv := Matrix.of (fun _ _ => 2)
  ADeriv := fun u => Matrix.of (fun _ _ => u 0 + 1)
  fF := 1
  fD := 0
  srcs := [srcC4]

/-- Simulation refuting claim C4 as stated: its source has a nonzero
right-hand-side derivative, which the claim says is summed into the
assembled block and the code omits. -/
def simC4cex : IPSim 1 1 where
  sign := 1
  Ainv := 1
  ADeriv := fun _ => 0
  fF := 1
  fD := 0
  srcs := [ { u := fun _ => 1
              rhsDeriv := Matrix.of (fun _ _ => 1)
              rxs := [⟨1, 1⟩] } ]

/-- A freshly constructed simulation instance: no model, no field object,
no factorization, no cached Jacobian or predicted data (class attributes
of lines 37-43). -/
def initState {p nC : ℕ} (sim : IPSim p nC) (storeJ : Bool) : SimState p nC where
  sim := sim
  storeJ := storeJ
  model := none
  fld := none
  ainv := none
  Jmat := none
  pred := none
  factorCount := 0
  solveCount := 0
  forwardCount := 0
  jComputeCount := 0

/-- Simulation for claim C5's runs. -/
def simC5 : IPSim 1 1 where
  sign := 1
  Ainv := Matrix.of (fun _ _ => 1)
  ADeriv := fun u => Matrix.of (fun _ _ => u 0)
  fF := 1
  fD := 0
  srcs := [ { u := fun _ => 2, rhsDeriv := 0, rxs := [⟨1, 1⟩] } ]

/-- State after a first `getJ` on a fresh instance with model `0`. -/
def stC5a : SimState 1 1 := (getJOp (fun _ => 0) none (initState simC5 false)).2

/-- The same state after the model is changed to `5`. -/
def stC5b : SimState 1 1 := setModelOp (fun _ => 5) stC5a

/-- Simulation for claim C6's runs. -/
def simC6 : IPSim 1 1 where
  sign := 1
  Ainv := Matrix.of (fun _ _ => 3)
  ADeriv := fun u => Matrix.of (fun _ _ => u 0 + 1)
  fF := 1
  fD := 0
  srcs := [ { u := fun _ => 1, rhsDeriv := 0, rxs := [⟨1, 1⟩] } ]

/-- Simulation for claim C7's witness. -/
def simC7 : IPSim 1 1 where
  sign := -1
  Ainv := Matrix.of (fun _ _ => 2)
  ADeriv := fun u => Matrix.of (fun _ _ => u 0)
  fF := 1
  fD := 0
  srcs := [ { u := fun _ => 4, rhsDeriv := 0, rxs := [⟨1, 1⟩] } ]

/-- Dimension-checked simulation for claim C8: one source, one receiver,
all operators 1 x 1. -/
def simC8 : LSim where
  sign := 1
  AinvM := ⟨1, 1, [[1]]⟩
  FM := ⟨1, 1, [[1]]⟩
  DM := ⟨1, 1, [[1]]⟩
  srcs := [ { u := [1], aDerivM := ⟨1, 1, [[1]]⟩, rhsM := ⟨1, 1, [[1]]⟩,
              rxs := [⟨1, 1, [[1]]⟩] } ]

/-! ### Helper lemmas -/

lemma dotL_append (w xs ys : List ℤ) :
    dotL w (xs ++ ys) = dotL w xs + dotL (w.drop xs.length) ys := by
  induction xs generalizing w with
  | nil => simp [dotL]
  | cons x xs ih =>
    cases w with
    | nil => simp [dotL]
    | cons a w' =>
      simp only [List.cons_append, dotL, List.zipWith_cons_cons, List.sum_cons,
        List.length_cons, List.drop_succ_cons]
      rw [← dotL, ← dotL, ← dotL, ih, add_assoc]

lemma dotL_ofFn {k : ℕ} (w : List ℤ) (g : Fin k → ℤ) :
    dotL w (List.ofFn g) = Matrix.dotProduct (sliceVec w k) g := by
  induction k generalizing w with
  | zero => simp [dotL, Matrix.dotProduct]
  | succ k ih =>
    rw [List.ofFn_succ]
    cases w with
    | nil =>
      simp [dotL, sliceVec, Matrix.dotProduct]
    | cons a w' =>
      simp only [dotL, List.zipWith_cons_cons, List.sum_cons]
      rw [← dotL, ih]
      simp [sliceVec, Matrix.dotProduct, Fin.sum_univ_succ]

lemma dotL_scale (c : ℤ) (w xs : List ℤ) :
    dotL w (scale c xs) = c * dotL w xs := by
  induction xs generalizing w with
  | nil => simp [dotL, scale]
  | cons x xs ih =>
    cases w with
    | nil => simp [dotL, scale]
    | cons a w' =>
      simp only [scale, List.map_cons, dotL, List.zipWith_cons_cons, List.sum_cons]
      rw [← dotL, ← scale, ← dotL, ih]
      ring

lemma length_JvecRx {p nC : ℕ} (sim : IPSim p nC) (s : Source p nC)
    (rx : Receiver p) (v : Vec nC) : (JvecRx sim s rx v).length = rx.nD := by
  simp [JvecRx]

lemma length_JvecRxs {p nC : ℕ} (sim : IPSim p nC) (s : Source p nC)
    (rxs : List (Receiver p)) (v : Vec nC) :
    (JvecRxs sim s rxs v).length = (rxs.map Receiver.nD).sum := by
  induction rxs with
  | nil => simp [JvecRxs]
  | cons rx rest ih => simp [JvecRxs, length_JvecRx, ih]

lemma length_JvecSrcs {p nC : ℕ} (sim : IPSim p nC)
    (srcs : List (Source p nC)) (v : Vec nC) :
    (JvecSrcs sim srcs v).length = (srcs.map srcND).sum := by
  induction srcs with
  | nil => simp [JvecSrcs]
  | cons s rest ih => simp [JvecSrcs, length_JvecRxs, ih, srcND]

/-- One receiver of the adjoint identity: projecting the linearized field
through the receiver against a slice of `w` equals the model-space dot
with that receiver's adjoint contribution (the factorization must be
symmetric, as the DC operator is, since the code solves the adjoint
system with the forward factorization). -/
lemma adjoint_rx {p nC : ℕ} (sim : IPSim p nC)
    (hsym : sim.Ainv.transpose = sim.Ainv) (s : Source p nC)
    (rx : Receiver p) (wr : Vec rx.nD) (v : Vec nC) :
    Matrix.dotProduct wr
      (rx.P.mulVec (sim.fF.mulVec (duDm sim s v) + sim.fD.mulVec v))
    = Matrix.dotProduct v (JtvecRx sim s rx wr) := by
  have h1 : Matrix.vecMul (Matrix.vecMul (Matrix.vecMul wr rx.P) sim.fF) sim.Ainv
      = sim.Ainv.mulVec (Matrix.vecMul (Matrix.vecMul wr rx.P) sim.fF) := by
    rw [← Matrix.mulVec_transpose, hsym]
  simp only [JtvecRx, duDm]
  simp only [Matrix.dotProduct_mulVec, Matrix.dotProduct_add,
    Matrix.dotProduct_neg, h1]
  simp only [Matrix.dotProduct_comm v]
  ring

lemma adjoint_rxs {p nC : ℕ} (sim : IPSim p nC)
    (hsym : sim.Ainv.transpose = sim.Ainv) (s : Source p nC)
    (rxs : List (Receiver p)) (w : List ℤ) (v : Vec nC) :
    dotL w (JvecRxs sim s rxs v)
    = Matrix.dotProduct v (JtvecRxs sim s rxs w) := by
  induction rxs generalizing w with
  | nil => simp [JvecRxs, JtvecRxs, dotL]
  | cons rx rest ih =>
    simp only [JvecRxs, JtvecRxs]
    rw [dotL_append, length_JvecRx, JvecRx, dotL_ofFn,
      adjoint_rx sim hsym s rx (sliceVec w rx.nD) v, ih,
      Matrix.dotProduct_add]

lemma adjoint_srcs {p nC : ℕ} (sim : IPSim p nC)
    (hsym : sim.Ainv.transpose = sim.Ainv)
    (srcs : List (Source p nC)) (w : List ℤ) (v : Vec nC) :
    dotL w (JvecSrcs sim srcs v)
    = Matrix.dotProduct v (JtvecSrcs sim srcs w) := by
  induction srcs generalizing w with
  | nil => simp [JvecSrcs, JtvecSrcs, dotL]
  | cons s rest ih =>
    simp only [JvecSrcs, JtvecSrcs]
    rw [dotL_append, length_JvecRxs, ← srcND,
      adjoint_rxs sim hsym s s.rxs w v, ih, Matrix.dotProduct_add]

/-! ### Claim C1: the adjoint identity -/

/-- Claim C1: for every model (captured by the simulation data), every
model-space direction `v` and every data-space vector `w`,
`dot(w, Jvec(m, v)) = dot(v, Jtvec(m, w))` — `Jtvec` is the true adjoint
of `Jvec`.  The hypothesis is that the factorized operator is symmetric
(the DC system operator is), which the code relies on when it solves the
adjoint system with the forward factorization `self.Ainv`. -/
theorem Jvec_Jtvec_adjoint_identity {p nC : ℕ} (sim : IPSim p nC)
    (hsym : sim.Ainv.transpose = sim.Ainv) (v : Vec nC) (w : List ℤ) :
    dotL w (Jvec sim v) = Matrix.dotProduct v (JtvecDir sim w) := by
  unfold Jvec JtvecDir
  rw [dotL_scale, adjoint_srcs sim hsym, Matrix.dotProduct_smul, smul_eq_mul]

theorem Jvec_Jtvec_adjoint_identity_witness :
    simC1.Ainv.transpose = simC1.Ainv ∧
    dotL [3, 5, 7] (Jvec simC1 ((fun i => (i : ℤ) + 1) : Vec 2))
      = Matrix.dotProduct ((fun i => (i : ℤ) + 1) : Vec 2)
          (JtvecDir simC1 [3, 5, 7]) :=
  ⟨by decide, Jvec_Jtvec_adjoint_identity simC1 (by decide) _ _⟩

/-! ### Claim C9: the forward map is the Jacobian applied to the model -/

lemma JvecRx_rows {p nC : ℕ} (sim : IPSim p nC) (s : Source p nC)
    (rx : Receiver p) (v : Vec nC) :
    JvecRx sim s rx v
      = (JacRowsRx sim s rx).map (fun r => Matrix.dotProduct r v) := by
  unfold JvecRx JacRowsRx
  rw [List.map_ofFn]
  have hvec : rx.P.mulVec (sim.fF.mulVec (duDm sim s v) + sim.fD.mulVec v)
      = (rx.P * (sim.fF * (sim.Ainv * (-(sim.ADeriv s.u) + s.rhsDeriv))
          + sim.fD)).mulVec v := by
    unfold duDm
    rw [show -(sim.ADeriv s.u).mulVec v + s.rhsDeriv.mulVec v
          = (-(sim.ADeriv s.u) + s.rhsDeriv).mulVec v from by
        rw [Matrix.add_mulVec, Matrix.neg_mulVec],
      Matrix.mulVec_mulVec, Matrix.mulVec_mulVec, ← Matrix.add_mulVec,
      Matrix.mulVec_mulVec, Matrix.mul_assoc sim.fF sim.Ainv]
  rw [hvec]
  rfl

lemma JvecRxs_rows {p nC : ℕ} (sim : IPSim p nC) (s : Source p nC)
    (rxs : List (Receiver p)) (v : Vec nC) :
    JvecRxs sim s rxs v
      = (JacRowsRxs sim s rxs).map (fun r => Matrix.dotProduct r v) := by
  induction rxs with
  | nil => rfl
  | cons rx rest ih =>
    simp only [JvecRxs, JacRowsRxs, List.map_append, JvecRx_rows, ih]

lemma JvecSrcs_rows {p nC : ℕ} (sim : IPSim p nC)
    (srcs : List (Source p nC)) (v : Vec nC) :
    JvecSrcs sim srcs v
      = (JacRowsSrcs sim srcs).map (fun r => Matrix.dotProduct r v) := by
  induction srcs with
  | nil => rfl
  | cons s rest ih =>
    simp only [JvecSrcs, JacRowsSrcs, List.map_append, JvecRxs_rows, ih]

/-- Claim C9: `forward(m, f)` is exactly `Jvec(m, m, f)` with the model
itself as the direction; the adjoint-state product is the fixed linear
map `JacRows` applied to the direction, so the result — and hence the
predicted data cached by `fields` — equals `sign` times the Jacobian
applied to `m`: the IP response is linear in the chargeability model. -/
theorem forward_is_sign_J_model {p nC : ℕ} (sim : IPSim p nC) (m : Vec nC) :
    forward sim m = Jvec sim m
    ∧ forward sim m
        = scale sim.sign ((JacRows sim).map (fun r => Matrix.dotProduct r m))
    ∧ ∀ s : SimState p nC, (fieldsOp m s).pred = some (forward s.sim m) := by
  refine ⟨rfl, ?_, ?_⟩
  · unfold forward Jvec JacRows
    rw [JvecSrcs_rows]
  · intro s
    unfold fieldsOp
    cases hf : s.fld with
    | none => cases ha : s.ainv <;> rfl
    | some f => rfl

/-! ### Claim C2: explicit-storage equivalence -/

/-- Under a symmetric factorization, the stored `-dA_dmT` columns of one
receiver block, read as rows of `getJ`, are the rows of
`-(P * Ainv * ADeriv u)`. -/
lemma fullColsRx_rows {p nC : ℕ} (sim : IPSim p nC)
    (hsym : sim.Ainv.transpose = sim.Ainv) (s : Source p nC) (rx : Receiver p) :
    fullColsRx sim s rx
      = List.ofFn (fun j : Fin rx.nD =>
          (-(rx.P * sim.Ainv * sim.ADeriv s.u)) j) := by
  unfold fullColsRx
  congr 1
  funext j c
  have h : ((sim.ADeriv s.u).transpose * (sim.Ainv * rx.P.transpose)) c j
      = (((sim.ADeriv s.u).transpose * (sim.Ainv * rx.P.transpose)).transpose) j c := rfl
  rw [h, Matrix.transpose_mul, Matrix.transpose_mul, Matrix.transpose_transpose,
    Matrix.transpose_transpose, hsym, Matrix.neg_apply, Matrix.mul_assoc]

/-- When the field-projection derivative is the identity with no direct
model part and the source term is model-independent, the adjoint-state
rows of one receiver collapse to the same `-(P * Ainv * ADeriv u)`. -/
lemma JacRowsRx_collapse {p nC : ℕ} (sim : IPSim p nC)
    (hF : sim.fF = 1) (hD : sim.fD = 0) (s : Source p nC)
    (hRs : s.rhsDeriv = 0) (rx : Receiver p) :
    JacRowsRx sim s rx
      = List.ofFn (fun j : Fin rx.nD =>
          (-(rx.P * sim.Ainv * sim.ADeriv s.u)) j) := by
  unfold JacRowsRx
  rw [hF, hD, hRs]
  congr 1
  funext j
  rw [add_zero, Matrix.one_mul, add_zero, Matrix.mul_neg, Matrix.mul_neg,
    Matrix.mul_assoc]

lemma JacRowsRxs_eq_fullColsSrc {p nC : ℕ} (sim : IPSim p nC)
    (hF : sim.fF = 1) (hD : sim.fD = 0)
    (hsym : sim.Ainv.transpose = sim.Ainv) (s : Source p nC)
    (hRs : s.rhsDeriv = 0) (rxs : List (Receiver p)) :
    JacRowsRxs sim s rxs = (rxs.map (fullColsRx sim s)).flatten := by
  induction rxs with
  | nil => rfl
  | cons rx rest ih =>
    simp only [JacRowsRxs, List.map_cons, List.flatten_cons, ih]
    rw [JacRowsRx_collapse sim hF hD s hRs rx, fullColsRx_rows sim hsym s rx]

lemma JacRowsSrcs_eq_fullCols {p nC : ℕ} (sim : IPSim p nC)
    (hF : sim.fF = 1) (hD : sim.fD = 0)
    (hsym : sim.Ainv.transpose = sim.Ainv) (srcs : List (Source p nC))
    (hR : ∀ s ∈ srcs, s.rhsDeriv = 0) :
    JacRowsSrcs sim srcs = (srcs.map (fullColsSrc sim)).flatten := by
  induction srcs with
  | nil => rfl
  | cons s rest ih =>
    simp only [JacRowsSrcs, List.map_cons, List.flatten_cons]
    rw [ih (fun s' hs' => hR s' (List.mem_cons_of_mem s hs')),
      JacRowsRxs_eq_fullColsSrc sim hF hD hsym s (hR s (List.mem_cons_self s rest))]
    rfl

/-- Claim C2: with the identity field-projection derivative, no direct
model-space term, a model-independent source term (all true of the IP
collaborators) and a symmetric factorization, the adjoint-state `Jvec`
equals `sign * (getJ(m) @ v)` row for row — for either formulation sign;
and whenever `storeJ` is enabled and a matrix is cached, `Jvec`/`Jtvec`
return exactly `sign * (J @ v)` and `sign * (J.T @ w)` against the cached
matrix, bypassing the adjoint-state machinery. -/
theorem Jvec_matches_getJ {p nC : ℕ} (sim : IPSim p nC)
    (hF : sim.fF = 1) (hD : sim.fD = 0)
    (hR : ∀ s ∈ sim.srcs, s.rhsDeriv = 0)
    (hsym : sim.Ainv.transpose = sim.Ainv) :
    (∀ v : Vec nC,
      Jvec sim v
        = scale sim.sign ((fullCols sim).map (fun r => Matrix.dotProduct r v)))
    ∧ (∀ (st : SimState p nC) (m v : Vec nC) (w : List ℤ)
        (fArg : Option (List (Vec p))) (Jc : List (Vec nC)),
        st.storeJ = true → st.Jmat = some Jc →
        (JvecOp m v fArg st).1
            = scale st.sim.sign (Jc.map (fun r => Matrix.dotProduct r v))
          ∧ (JtvecOp m w fArg st).1 = st.sim.sign • applyCols Jc w) := by
  constructor
  · intro v
    unfold Jvec fullCols
    rw [JvecSrcs_rows, JacRowsSrcs_eq_fullCols sim hF hD hsym sim.srcs hR]
  · intro st m v w fArg Jc hstore hJ
    constructor
    · simp only [JvecOp, setModelOp, hstore, if_true, getJOp, hJ]
    · simp only [JtvecOp, hstore, if_true, getJOp, setModelOp, hJ]

theorem Jvec_matches_getJ_witness :
    (simC2cc.fF = 1 ∧ simC2cc.fD = 0 ∧ (∀ s ∈ simC2cc.srcs, s.rhsDeriv = 0)
      ∧ simC2cc.Ainv.transpose = simC2cc.Ainv)
    ∧ Jvec simC2cc ((fun i => (i : ℤ) + 1) : Vec 2)
        = scale simC2cc.sign
            ((fullCols simC2cc).map
              (fun r => Matrix.dotProduct r ((fun i => (i : ℤ) + 1) : Vec 2)))
    ∧ (JvecOp ((fun _ => 0) : Vec 2) ((fun i => (i : ℤ) + 1) : Vec 2) none stC2).1
        = scale stC2.sim.sign
            ((([fun c => (c : ℤ) + 1, fun c => 2 * (c : ℤ)] : List (Vec 2))).map
              (fun r => Matrix.dotProduct r ((fun i => (i : ℤ) + 1) : Vec 2))) := by
  refine ⟨⟨rfl, rfl, ?_, by decide⟩, ?_, ?_⟩
  · intro s hs
    simp only [simC2cc, List.mem_singleton] at hs
    rw [hs]
  · exact (Jvec_matches_getJ simC2cc rfl rfl
      (by intro s hs; simp only [simC2cc, List.mem_singleton] at hs; rw [hs])
      (by decide)).1 _
  · exact ((Jvec_matches_getJ simC2cc rfl rfl
      (by intro s hs; simp only [simC2cc, List.mem_singleton] at hs; rw [hs])
      (by decide)).2 stC2 _ _ [] none _ rfl rfl).1

/-! ### Claim C3: sign is applied only on the direction path -/

lemma applyCols_append {n : ℕ} (xs ys : List (Vec n)) (w : List ℤ) :
    applyCols (xs ++ ys) w = applyCols xs w + applyCols ys (w.drop xs.length) := by
  induction xs generalizing w with
  | nil => simp [applyCols]
  | cons x xs ih =>
    cases w with
    | nil => simp [applyCols]
    | cons a w' =>
      simp only [List.cons_append, applyCols, List.zipWith_cons_cons,
        List.sum_cons, List.length_cons, List.drop_succ_cons]
      rw [← applyCols, ← applyCols, ← applyCols, ih, add_assoc]

lemma applyCols_ofFn {n k : ℕ} (g : Fin k → Vec n) (w : List ℤ) :
    applyCols (List.ofFn g) w = ∑ j : Fin k, sliceVec w k j • g j := by
  induction k generalizing w with
  | zero => simp [applyCols]
  | succ k ih =>
    rw [List.ofFn_succ]
    cases w with
    | nil =>
      simp [applyCols, sliceVec]
    | cons a w' =>
      simp only [applyCols, List.zipWith_cons_cons, List.sum_cons]
      rw [← applyCols, ih]
      simp [sliceVec, Fin.sum_univ_succ]

lemma length_fullColsRx {p nC : ℕ} (sim : IPSim p nC) (s : Source p nC)
    (rx : Receiver p) : (fullColsRx sim s rx).length = rx.nD := by
  simp [fullColsRx]

lemma length_fullColsSrc {p nC : ℕ} (sim : IPSim p nC) (s : Source p nC) :
    (fullColsSrc sim s).length = srcND s := by
  unfold fullColsSrc srcND
  rw [List.length_flatten, List.map_map]
  exact congrArg List.sum
    (List.map_congr_left (fun rx _ => length_fullColsRx sim s rx))

/-- Under the collapsing hypotheses, the direction-path contribution of a
receiver is the adjoint of its `-dA_dmT` alone. -/
lemma JtvecRx_collapse {p nC : ℕ} (sim : IPSim p nC)
    (hF : sim.fF = 1) (hD : sim.fD = 0) (s : Source p nC)
    (hRs : s.rhsDeriv = 0) (rx : Receiver p) (wr : Vec rx.nD) :
    JtvecRx sim s rx wr
      = -(Matrix.vecMul (sim.Ainv.mulVec (Matrix.vecMul wr rx.P))
          (sim.ADeriv s.u)) := by
  simp only [JtvecRx, hF, hD, hRs, Matrix.vecMul_one, Matrix.vecMul_zero,
    zero_add, add_zero]

/-- Applying the stored `-dA_dmT` columns of one receiver block to the
head slice of `w` gives exactly the collapsed direction-path value. -/
lemma fullColsRx_apply {p nC : ℕ} (sim : IPSim p nC) (s : Source p nC)
    (rx : Receiver p) (w : List ℤ) :
    applyCols (fullColsRx sim s rx) w
      = -(Matrix.vecMul (sim.Ainv.mulVec (Matrix.vecMul (sliceVec w rx.nD) rx.P))
          (sim.ADeriv s.u)) := by
  rw [show Matrix.vecMul
        (sim.Ainv.mulVec (Matrix.vecMul (sliceVec w rx.nD) rx.P))
        (sim.ADeriv s.u)
      = ((sim.ADeriv s.u).transpose
          * (sim.Ainv * rx.P.transpose)).mulVec (sliceVec w rx.nD) from by
    rw [← Matrix.mulVec_transpose rx.P, ← Matrix.mulVec_transpose (sim.ADeriv s.u),
      Matrix.mulVec_mulVec, Matrix.mulVec_mulVec, Matrix.mul_assoc]]
  unfold fullColsRx
  rw [applyCols_ofFn]
  funext c
  rw [Finset.sum_apply, Pi.neg_apply]
  simp only [Matrix.mulVec, Matrix.dotProduct, Pi.smul_apply, smul_eq_mul]
  rw [← Finset.sum_neg_distrib]
  exact Finset.sum_congr rfl (fun j _ => by ring)

lemma JtvecRxs_collapse {p nC : ℕ} (sim : IPSim p nC)
    (hF : sim.fF = 1) (hD : sim.fD = 0) (s : Source p nC)
    (hRs : s.rhsDeriv = 0) (rxs : List (Receiver p)) (w : List ℤ) :
    JtvecRxs sim s rxs w = applyCols ((rxs.map (fullColsRx sim s)).flatten) w := by
  induction rxs generalizing w with
  | nil => simp [JtvecRxs, applyCols]
  | cons rx rest ih =>
    simp only [JtvecRxs, List.map_cons, List.flatten_cons]
    rw [applyCols_append, length_fullColsRx, fullColsRx_apply,
      JtvecRx_collapse sim hF hD s hRs rx, ih]

lemma JtvecSrcs_collapse {p nC : ℕ} (sim : IPSim p nC)
    (hF : sim.fF = 1) (hD : sim.fD = 0) (srcs : List (Source p nC))
    (hR : ∀ s ∈ srcs, s.rhsDeriv = 0) (w : List ℤ) :
    JtvecSrcs sim srcs w = applyCols ((srcs.map (fullColsSrc sim)).flatten) w := by
  induction srcs generalizing w with
  | nil => simp [JtvecSrcs, applyCols]
  | cons s rest ih =>
    simp only [JtvecSrcs, List.map_cons, List.flatten_cons]
    rw [applyCols_append, length_fullColsSrc,
      ih (fun s' hs' => hR s' (List.mem_cons_of_mem s hs')),
      JtvecRxs_collapse sim hF hD s (hR s (List.mem_cons_self s rest)), fullColsSrc]

/-- Claim C3: `_Jtvec` with a direction vector returns its accumulation
scaled by `sign`, while the full-matrix assembly (`v = None`) is not
sign-scaled: applying the assembled columns to a direction reproduces the
direction path only after multiplying by `sign` once.  The collapsing
hypotheses state the facts about the IP collaborators (identity field
derivative, no direct model term, model-independent source). -/
theorem Jtvec_sign_asymmetry {p nC : ℕ} (sim : IPSim p nC)
    (hF : sim.fF = 1) (hD : sim.fD = 0)
    (hR : ∀ s ∈ sim.srcs, s.rhsDeriv = 0) (w : List ℤ) :
    JtvecDir sim w = sim.sign • applyCols (fullCols sim) w := by
  unfold JtvecDir fullCols
  rw [JtvecSrcs_collapse sim hF hD sim.srcs hR]

theorem Jtvec_sign_asymmetry_witness :
    (simC3.fF = 1 ∧ simC3.fD = 0 ∧ ∀ s ∈ simC3.srcs, s.rhsDeriv = 0)
    ∧ JtvecDir simC3 [1, 2, 3]
        = simC3.sign • applyCols (fullCols simC3) [1, 2, 3] := by
  have hR : ∀ s ∈ simC3.srcs, s.rhsDeriv = 0 := by
    intro s hs
    simp only [simC3, List.mem_singleton] at hs
    rw [hs]
  exact ⟨⟨rfl, rfl, hR⟩, Jtvec_sign_asymmetry simC3 rfl rfl hR [1, 2, 3]⟩

/-! ### Claim C4: full-assembly block layout and contents -/

lemma flatten_map_skip {α β : Type} (f : α → List β) (pre rest : List α) (k : ℕ) :
    ((pre ++ rest).map f).flatten[(pre.map (fun a => (f a).length)).sum + k]?
      = ((rest.map f).flatten)[k]? := by
  induction pre with
  | nil => simp
  | cons a pre ih =>
    simp only [List.cons_append, List.map_cons, List.flatten_cons, List.sum_cons]
    rw [add_assoc,
      List.getElem?_append_right (Nat.le_add_right (f a).length _),
      Nat.add_sub_cancel_left]
    exact ih

lemma length_fullCols {p nC : ℕ} (sim : IPSim p nC) :
    (fullCols sim).length = totalND sim := by
  unfold fullCols totalND
  rw [List.length_flatten, List.map_map]
  exact congrArg List.sum
    (List.map_congr_left (fun s _ => length_fullColsSrc sim s))

/-- Claim C4, amended: when `_Jtvec` assembles the full Jacobian
(`v = None`), the `(nC, nD)` column-major buffer holds, for each source
and receiver, the contiguous column block starting at the running offset
(the total observation count of all earlier receivers in
source-then-receiver order) and advanced by `rx.nD`; the block written is
the negated adjoint system-operator derivative
`-getADeriv(u_src, Ainv @ P.T, adjoint=True)` alone — the adjoint
right-hand-side derivative is not computed on this path. -/
theorem full_assembly_block_layout {p nC : ℕ} (sim : IPSim p nC)
    (pre post : List (Source p nC)) (s : Source p nC)
    (rpre rpost : List (Receiver p)) (rx : Receiver p) (j : Fin rx.nD)
    (hs : sim.srcs = pre ++ s :: post) (hr : s.rxs = rpre ++ rx :: rpost) :
    (fullCols sim)[(pre.map srcND).sum + ((rpre.map Receiver.nD).sum + j.val)]?
      = some (fun c =>
          -((sim.ADeriv s.u).transpose * (sim.Ainv * rx.P.transpose)) c j)
    ∧ (fullCols sim).length = totalND sim := by
  refine ⟨?_, length_fullCols sim⟩
  unfold fullCols
  rw [hs]
  have hpre : (pre.map (fun a => (fullColsSrc sim a).length)).sum
      = (pre.map srcND).sum :=
    congrArg List.sum (List.map_congr_left (fun a _ => length_fullColsSrc sim a))
  rw [← hpre, flatten_map_skip]
  simp only [List.map_cons, List.flatten_cons]
  rw [List.getElem?_append, if_pos ?hlt]
  case hlt =>
    rw [length_fullColsSrc, srcND, hr]
    simp only [List.map_append, List.sum_append, List.map_cons, List.sum_cons]
    have := j.isLt
    omega
  unfold fullColsSrc
  rw [hr]
  have hpre2 : (rpre.map (fun r => (fullColsRx sim s r).length)).sum
      = (rpre.map Receiver.nD).sum :=
    congrArg List.sum (List.map_congr_left (fun r _ => length_fullColsRx sim s r))
  rw [← hpre2, flatten_map_skip]
  simp only [List.map_cons, List.flatten_cons]
  rw [List.getElem?_append, if_pos (by rw [length_fullColsRx]; exact j.isLt)]
  unfold fullColsRx
  rw [List.getElem?_ofFn, List.ofFnNthVal, dif_pos j.isLt]

theorem full_assembly_block_layout_witness :
    (simC4.srcs = [] ++ srcC4 :: [] ∧ srcC4.rxs = [rxC4a] ++ rxC4b :: [])
    ∧ (fullCols simC4)[(([] : List (Source 1 1)).map srcND).sum
          + (([rxC4a].map Receiver.nD).sum
              + ((⟨1, by decide⟩ : Fin rxC4b.nD) : Fin rxC4b.nD).val)]?
        = some (fun c =>
            -((simC4.ADeriv srcC4.u).transpose
                * (simC4.Ainv * rxC4b.P.transpose)) c ⟨1, by decide⟩) :=
  ⟨⟨rfl, rfl⟩,
    (full_assembly_block_layout simC4 [] [] srcC4 [rxC4a] [] rxC4b
      ⟨1, by decide⟩ rfl rfl).1⟩

/-- Claim C4 as stated is false: on `simC4cex` the assembled column is
`-dA_dmT = 0`, while the claimed sum `-dA_dmT + dRHS_dmT` is nonzero —
the full-matrix path never computes the right-hand-side derivative. -/
theorem full_assembly_not_spec_sum : fullCols simC4cex ≠ fullColsSpec simC4cex := by
  decide

/-! ### Claims C5, C6, C7, C10: stateful cache behaviour -/

/-- Claim C5, amended: assigning the model invalidates nothing
(`deleteTheseOnModelUpdate` is the empty list): field object,
factorization handle and cached Jacobian all survive, and a `getJ` call
with a matrix already cached returns that matrix unchanged without any
reassembly. -/
theorem model_update_keeps_caches {p nC : ℕ} (s : SimState p nC) (m : Vec nC)
    (fArg : Option (List (Vec p))) (Jc : List (Vec nC))
    (hJ : s.Jmat = some Jc) :
    (setModelOp m s).fld = s.fld
    ∧ (setModelOp m s).ainv = s.ainv
    ∧ (setModelOp m s).Jmat = s.Jmat
    ∧ (getJOp m fArg s).1 = Jc
    ∧ (getJOp m fArg s).2.jComputeCount = s.jComputeCount := by
  refine ⟨rfl, rfl, rfl, ?_, ?_⟩ <;> simp [getJOp, setModelOp, hJ]

theorem model_update_keeps_caches_witness :
    stC5a.Jmat = some (fullCols simC5)
    ∧ ((setModelOp (fun _ => 5) stC5a).fld = stC5a.fld
        ∧ (setModelOp (fun _ => 5) stC5a).ainv = stC5a.ainv
        ∧ (setModelOp (fun _ => 5) stC5a).Jmat = stC5a.Jmat
        ∧ (getJOp (fun _ => 5) none stC5a).1 = fullCols simC5
        ∧ (getJOp (fun _ => 5) none stC5a).2.jComputeCount
            = stC5a.jComputeCount) :=
  ⟨rfl, model_update_keeps_caches stC5a (fun _ => 5) none (fullCols simC5) rfl⟩

/-- Claim C5 as stated is false: after a `getJ` with model `0` and a
model change to `5`, no cache is invalidated (the field object, cleaned
factorization handle and Jacobian all survive), and the next `getJ`
returns the previously cached matrix without recomputing (the assembly
counter stays at 1). -/
theorem getJ_stale_after_model_change :
    stC5b.model ≠ stC5a.model
    ∧ stC5b.fld = stC5a.fld
    ∧ stC5b.ainv = stC5a.ainv
    ∧ stC5b.Jmat = stC5a.Jmat
    ∧ stC5b.Jmat ≠ none
    ∧ (getJOp (fun _ => 5) none stC5b).1 = (getJOp (fun _ => 0) none (initState simC5 false)).1
    ∧ (getJOp (fun _ => 5) none stC5b).2.jComputeCount = 1
    ∧ stC5b.jComputeCount = 1 := by
  refine ⟨?_, rfl, rfl, rfl, ?_, rfl, rfl, rfl⟩
  · intro h
    have := congrArg (fun o => o.map (fun f => f 0)) h
    simp [stC5b, stC5a, setModelOp, getJOp, fieldsOp, initState] at this
  · intro h
    simp [stC5b, stC5a, setModelOp, getJOp, fieldsOp, initState] at h

/-- Claim C6, amended: a repeated `dpred(m)` with the same model returns
the same value and triggers no new factorization or solve, but it does
re-run the predicted-data forward evaluation, because `fields`
unconditionally recomputes `self._pred` on every call. -/
theorem dpred_reuses_solve_but_recomputes {p nC : ℕ}
    (s : SimState p nC) (m : Vec nC) :
    (dpredOp m none ((dpredOp m none s).2)).1 = (dpredOp m none s).1
    ∧ (dpredOp m none ((dpredOp m none s).2)).2.solveCount
        = (dpredOp m none s).2.solveCount
    ∧ (dpredOp m none ((dpredOp m none s).2)).2.factorCount
        = (dpredOp m none s).2.factorCount
    ∧ (dpredOp m none ((dpredOp m none s).2)).2.forwardCount
        = (dpredOp m none s).2.forwardCount + 1 := by
  unfold dpredOp
  cases hf : s.fld with
  | none => cases ha : s.ainv <;> simp [fieldsOp, hf, ha]
  | some f => simp [fieldsOp, hf]

theorem dpred_reuses_solve_but_recomputes_witness :
    (dpredOp (fun _ => 3) none
        ((dpredOp ((fun _ => 3) : Vec 1) none (initState simC6 false)).2)).1
      = (dpredOp (fun _ => 3) none (initState simC6 false)).1
    ∧ (dpredOp (fun _ => 3) none
        ((dpredOp ((fun _ => 3) : Vec 1) none (initState simC6 false)).2)).2.forwardCount
      = (dpredOp (fun _ => 3) none (initState simC6 false)).2.forwardCount + 1 :=
  ⟨(dpred_reuses_solve_but_recomputes (initState simC6 false) (fun _ => 3)).1,
   (dpred_reuses_solve_but_recomputes (initState simC6 false) (fun _ => 3)).2.2.2⟩

/-- Claim C6 as stated is false: after a first `dpred` on a fresh
instance (which caches predicted data), a second `dpred` with the same
model performs another forward evaluation — the counter advances from 1
to 2 even though `_pred` was already cached. -/
theorem dpred_recomputes_counterexample :
    ((dpredOp ((fun _ => 3) : Vec 1) none (initState simC6 false)).2.pred).isSome = true
    ∧ (dpredOp (fun _ => 3) none
        ((dpredOp ((fun _ => 3) : Vec 1) none (initState simC6 false)).2)).2.forwardCount = 2
    ∧ (dpredOp ((fun _ => 3) : Vec 1) none (initState simC6 false)).2.forwardCount = 1 := by
  decide

/-- Claim C7: calling `fields(m)` a second time without changing the
model returns the same cached field object with identical contents, and
performs no second solve and no second factorization. -/
theorem fields_idempotent {p nC : ℕ} (s : SimState p nC) (m : Vec nC)
    (h : s.fld = none) :
    (fieldsOp m (fieldsOp m s)).fld = (fieldsOp m s).fld
    ∧ (fieldsOp m s).fld = some (fieldsSolution s.sim)
    ∧ (fieldsOp m (fieldsOp m s)).solveCount = (fieldsOp m s).solveCount
    ∧ (fieldsOp m (fieldsOp m s)).factorCount = (fieldsOp m s).factorCount := by
  cases ha : s.ainv <;> simp [fieldsOp, h, ha]

theorem fields_idempotent_witness :
    (initState simC7 false).fld = none
    ∧ ((fieldsOp ((fun _ => 1) : Vec 1) (fieldsOp (fun _ => 1) (initState simC7 false))).fld
          = (fieldsOp ((fun _ => 1) : Vec 1) (initState simC7 false)).fld
        ∧ (fieldsOp ((fun _ => 1) : Vec 1) (initState simC7 false)).fld
          = some (fieldsSolution (initState simC7 false).sim)
        ∧ (fieldsOp ((fun _ => 1) : Vec 1) (fieldsOp (fun _ => 1) (initState simC7 false))).solveCount
          = (fieldsOp ((fun _ => 1) : Vec 1) (initState simC7 false)).solveCount
        ∧ (fieldsOp ((fun _ => 1) : Vec 1) (fieldsOp (fun _ => 1) (initState simC7 false))).factorCount
          = (fieldsOp ((fun _ => 1) : Vec 1) (initState simC7 false)).factorCount) :=
  ⟨rfl, fields_idempotent (initState simC7 false) (fun _ => 1) rfl⟩

/-- Claim C10: `dpred` with an explicitly supplied field object ignores
it entirely — it returns the currently cached `_pred` and leaves the
state untouched; on a fresh instance this cached value is `None`. -/
theorem dpred_with_field_returns_cache {p nC : ℕ} (s : SimState p nC)
    (m : Vec nC) (fv : List (Vec p)) :
    (dpredOp m (some fv) s).1 = s.pred
    ∧ (dpredOp m (some fv) s).2 = s
    ∧ ∀ (sim : IPSim p nC) (b : Bool) (m2 : Vec nC) (fv2 : List (Vec p)),
        (dpredOp m2 (some fv2) (initState sim b)).1 = none :=
  ⟨rfl, rfl, fun _ _ _ _ => rfl⟩

/-! ### Claim C8: shape validation differs between the two paths -/

/-- Claim C8, amended: the two entry points behave differently on a
wrong-length vector.  `_Jtvec` does fail fast: the `Data` wrapper
validates the observation vector's length against `survey.nD` and raises
a descriptive size-mismatch error with zero linear-algebra kernel calls
attempted.  `Jvec`, however, performs no size validation: whenever the
first source's operator-derivative width disagrees with the direction
vector's length, the shape error is raised from inside the first
attempted linear-algebra kernel call — the attempt count at the error is
1, not 0, so the failure is not prior to linear algebra. -/
theorem shape_check_asymmetry (sim : LSim) (m v w : List ℤ)
    (s : LSource) (rest : List LSource)
    (hs : sim.srcs = s :: rest) (hmis : ¬ s.aDerivM.c = v.length)
    (hw : ¬ w.length = totalNDL sim) :
    JvecL sim v = (Except.error "shapes not aligned", 1)
    ∧ JtvecL sim m w
        = (Except.error "observation vector length does not match survey.nD", 0) := by
  constructor
  · simp [JvecL, JvecSrcsL, hs, mvE, bindE, hmis]
  · simp [JtvecL, hw]

theorem shape_check_asymmetry_witness :
    (simC8.srcs
        = ({ u := [1], aDerivM := ⟨1, 1, [[1]]⟩, rhsM := ⟨1, 1, [[1]]⟩,
             rxs := [⟨1, 1, [[1]]⟩] } : LSource) :: []
      ∧ ¬ ({ u := [1], aDerivM := ⟨1, 1, [[1]]⟩, rhsM := ⟨1, 1, [[1]]⟩,
             rxs := [⟨1, 1, [[1]]⟩] } : LSource).aDerivM.c = ([] : List ℤ).length
      ∧ ¬ ([1, 2] : List ℤ).length = totalNDL simC8)
    ∧ JvecL simC8 [] = (Except.error "shapes not aligned", 1)
    ∧ JtvecL simC8 [1] [1, 2]
        = (Except.error "observation vector length does not match survey.nD", 0) :=
  ⟨⟨rfl, by decide, by decide⟩,
    (shape_check_asymmetry simC8 [1] [] [1, 2] _ [] rfl (by decide) (by decide)).1,
    (shape_check_asymmetry simC8 [1] [] [1, 2] _ [] rfl (by decide) (by decide)).2⟩

/-- Claim C8 as stated is false: on `simC8` with an empty (wrong-length)
direction vector, `Jvec` does produce a shape error, but the count of
attempted linear-algebra operations at that point is 1, not 0 — the
error comes from inside the first kernel call, not from a fail-fast
check before any linear algebra. -/
theorem Jvec_shape_error_not_failfast :
    (JvecL simC8 []).1 = Except.error "shapes not aligned"
    ∧ (JvecL simC8 []).2 = 1
    ∧ (JvecL simC8 []).2 ≠ 0 :=
  ⟨rfl, rfl, by decide⟩

end IPSimVerif
